import Mathlib

/-!
Verification of the cline storage core: the file-backed key-value store
(`ClineFileStorage`), the one-time VSCode-to-file migration
(`migrateVSCodeStorageToFiles`), the credential-broker client
(`getServerCredentials`) and the VSCode host-bridge credential stubs.

The TypeScript sources are shallowly embedded: a JavaScript object
(`Record<string, T>`) is modelled as an association list in insertion
order, file I/O is modelled by explicit state passing with a success
flag (failures are swallowed by the source, leaving the file unchanged),
and asynchronous reads that may throw are modelled with `Except`.
-/

namespace ClineSpec

/-! ## JavaScript object model

A `Record<string, T>` is an association list in insertion order.
`obj[k]` is the first binding of `k`; `obj[k] = v` updates the binding in
place when present and appends at the end otherwise; `delete obj[k]`
removes the binding.  JavaScript objects never hold a duplicate key, so
on the states reachable from the source these definitions agree with the
JavaScript semantics. -/

/-- `obj[k]`: first binding of `k`, if any. -/
def jsGet (m : List (String × α)) (k : String) : Option α :=
  match m with
  | [] => none
  | p :: t => if p.1 = k then some p.2 else jsGet t k

/-- `obj[k] = v`: replace the binding in place, else append at the end. -/
def jsSet (m : List (String × α)) (k : String) (v : α) : List (String × α) :=
  match m with
  | [] => [(k, v)]
  | p :: t => if p.1 = k then (k, v) :: t else p :: jsSet t k v

/-- `delete obj[k]`: remove the binding of `k`. -/
def jsDelete (m : List (String × α)) (k : String) : List (String × α) :=
  match m with
  | [] => []
  | p :: t => if p.1 = k then jsDelete t k else p :: jsDelete t k

/-- `k in obj`: whether `k` is bound. -/
def jsHas (m : List (String × α)) (k : String) : Bool :=
  (jsGet m k).isSome

/-! ## ClineFileStorage (src/shared/storage/ClineFileStorage.ts)

A store instance holds its in-memory mapping `data` and is paired with
the content of its backing file (`file`, `none` when the file does not
exist).  `readFromDisk` / `writeToDisk` carry an explicit success flag:
the source catches every I/O error, falling back to the empty mapping on
read and leaving the file unchanged on write.  The file stores the
JSON-serialized mapping; since `JSON.stringify` is injective on
mappings, the file content is modelled by the mapping itself. -/

/-- State of one `ClineFileStorage` instance together with its backing file. -/
structure StoreState (α : Type) where
  data : List (String × α)
  file : Option (List (String × α))
deriving Repr

/-- `readFromDisk`: parse the backing file; on a missing file or any
read/parse error (`ok = false`) return the empty mapping. -/
def readFromDisk (file : Option (List (String × α))) (ok : Bool) :
    List (String × α) :=
  match file with
  | some m => if ok then m else []
  | none => []

/-- `writeToDisk`: write the whole mapping; on failure (`ok = false`) the
error is logged and swallowed, leaving the file at its previous content. -/
def writeToDisk (data : List (String × α)) (file : Option (List (String × α)))
    (ok : Bool) : Option (List (String × α)) :=
  if ok then some data else file

namespace ClineFileStorage

/-- The constructor: `this.data = this.readFromDisk()`. -/
def mk (file : Option (List (String × α))) (readOk : Bool) : StoreState α :=
  { data := readFromDisk file readOk, file := file }

/-- `_get(key)`: pure read from the in-memory mapping. -/
def get (s : StoreState α) (k : String) : Option α :=
  jsGet s.data k

/-- `_set(key, value)`: `undefined` deletes, otherwise assign; then persist. -/
def set (s : StoreState α) (k : String) (v : Option α) (writeOk : Bool) :
    StoreState α :=
  let d := match v with
    | none => jsDelete s.data k
    | some v => jsSet s.data k v
  { data := d, file := writeToDisk d s.file writeOk }

/-- `_delete(key)`: remove the binding, then persist. -/
def delete (s : StoreState α) (k : String) (writeOk : Bool) : StoreState α :=
  let d := jsDelete s.data k
  { data := d, file := writeToDisk d s.file writeOk }

/-- One iteration of the `setBatch` loop: the accumulator is the mapping
together with the `changed` flag.  An `undefined` value deletes the key and
marks `changed` only when the key was bound; a defined value assigns and
always marks `changed`. -/
def setBatchStep (acc : List (String × α) × Bool) (e : String × Option α) :
    List (String × α) × Bool :=
  match e.2 with
  | none => if jsHas acc.1 e.1 then (jsDelete acc.1 e.1, true) else acc
  | some v => (jsSet acc.1 e.1 v, true)

/-- `setBatch(entries)`: fold the loop over the entries; when `changed`,
persist once and fire one change event per key of the batch.  Returns the
new state, the number of persist operations, and the fired keys in order. -/
def setBatch (s : StoreState α) (entries : List (String × Option α))
    (writeOk : Bool) : StoreState α × Nat × List String :=
  let r := entries.foldl setBatchStep (s.data, false)
  if r.2 then
    ({ data := r.1, file := writeToDisk r.1 s.file writeOk }, 1,
      entries.map Prod.fst)
  else
    ({ data := r.1, file := s.file }, 0, [])

end ClineFileStorage

/-- The condition under which `setBatch` persists and fires events: some
entry either carries a defined value (a plain assignment, counted as a
change by the source even when the assigned value equals the stored one)
or deletes a key that is currently bound. -/
def batchChanged (data : List (String × α)) (entries : List (String × Option α)) :
    Bool :=
  entries.any (fun e =>
    match e.2 with
    | some _ => true
    | none => jsHas data e.1)

/-! ## Migration (src/core/storage/vscode-to-file-migration.ts)

The destination `StorageContext` groups the three file-backed stores.
`KeyValueStore.get` reads only the in-memory mapping and `set` swallows
every disk error, so no store operation used by the migration can fail
or branch on disk state; the migration embedding therefore models each
destination store by its in-memory mapping.

The VSCode `globalState` holds the sentinel integer next to arbitrary
application values, so its value type is the sum `GVal`.  Legacy reads
are modelled as `Except`-valued functions: `Except.error` is a thrown
exception.  The fixed key sets (`GlobalStateAndSettingKeys`, `SecretKeys`,
`LocalStateKeys`, defined in state-keys.ts outside this fragment) are
parameters. -/

/-- A value stored in the global-state domain: the integer migration
sentinel or an arbitrary application value. -/
inductive GVal (α : Type) where
  | num (n : Nat)
  | val (a : α)
deriving Repr, DecidableEq

/-- `CURRENT_MIGRATION_VERSION = 1`. -/
def CURRENT_MIGRATION_VERSION : Nat := 1

/-- `MIGRATION_VERSION_KEY = "__migrationVersion"`. -/
def MIGRATION_VERSION_KEY : String := "__migrationVersion"

/-- `MigrationResult` (vscode-to-file-migration.ts). -/
structure MigrationResult where
  migrated : Bool
  globalStateCount : Nat
  secretsCount : Nat
  workspaceStateCount : Nat
  skippedExisting : Nat
deriving Repr, DecidableEq

/-- The legacy VSCode `ExtensionContext` source: three read-by-key
accessors.  `Except.error` models a thrown exception; the secrets
accessor is the one the source guards per key. -/
structure VSCodeContext (α : Type) where
  globalState : String → Except String (Option (GVal α))
  secrets : String → Except String (Option String)
  workspaceState : String → Except String (Option α)

/-- The destination `StorageContext`: the in-memory mappings of the three
file-backed stores (see the section comment for why disk state is
omitted here). -/
structure StorageContext (α : Type) where
  globalState : List (String × GVal α)
  secrets : List (String × String)
  workspaceState : List (String × α)
deriving Repr

/-- The sentinel check
`existingVersion !== undefined && existingVersion >= CURRENT_MIGRATION_VERSION`.
The source reads the value at `get<number>`; the migration itself only
ever stores a number there, and for a non-numeric value the check is
modelled as false (the migration runs). -/
def sentinelAtLeast (o : Option (GVal α)) : Bool :=
  match o with
  | some (GVal.num n) => CURRENT_MIGRATION_VERSION ≤ n
  | _ => false

/-- Steps 1 and 3 of the migration: the loop over a state key set (the
source repeats the same loop body verbatim for `GlobalStateAndSettingKeys`
against `storage.globalState` and for `LocalStateKeys` against
`storage.workspaceState`; it is defined once here, generic in the store
value type `β`).  The accumulator is (store mapping, write counter,
skippedExisting); a read error aborts the loop, surfacing the partial
state and the error (the caller rethrows). -/
def migrateStateLoop (vs : String → Except String (Option β)) :
    List String → List (String × β) × Nat × Nat →
    (List (String × β) × Nat × Nat) × Option String
  | [], acc => (acc, none)
  | k :: rest, (g, cnt, skp) =>
    match vs k with
    | .error e => ((g, cnt, skp), some e)
    | .ok none => migrateStateLoop vs rest (g, cnt, skp)
    | .ok (some v) =>
      match jsGet g k with
      | some _ => migrateStateLoop vs rest (g, cnt, skp + 1)
      | none => migrateStateLoop vs rest (jsSet g k v, cnt + 1, skp)

/-- The body of step 2 of the migration for one key of `SecretKeys`.  The
whole body is wrapped in a per-key `try`/`catch`, so a read error only
skips that key.  A legacy value that is `undefined` or `""` is skipped; a
destination value that is defined and not `""` blocks the write and
counts as `skippedExisting`. -/
def migrateSecretsStep (vs : String → Except String (Option String))
    (acc : List (String × String) × Nat × Nat) (k : String) :
    List (String × String) × Nat × Nat :=
  match acc with
  | (s, cnt, skp) =>
    match vs k with
    | .error _ => (s, cnt, skp)
    | .ok none => (s, cnt, skp)
    | .ok (some v) =>
      if v = "" then (s, cnt, skp)
      else
        match jsGet s k with
        | some w =>
          if w = "" then (jsSet s k v, cnt + 1, skp)
          else (s, cnt, skp + 1)
        | none => (jsSet s k v, cnt + 1, skp)

/-- Step 2 of the migration: the loop over `SecretKeys`.  No error
escapes the loop. -/
def migrateSecretsLoop (vs : String → Except String (Option String))
    (keys : List String) (acc : List (String × String) × Nat × Nat) :
    List (String × String) × Nat × Nat :=
  keys.foldl (migrateSecretsStep vs) acc

/-- The legacy read returned without throwing. -/
def readNoThrow (r : Except String (Option β)) : Bool :=
  match r with
  | .ok _ => true
  | .error _ => false

/-- `migrateVSCodeStorageToFiles(vscodeContext, storage)`.  Returns the
`MigrationResult` (or the propagated error) together with the final
destination state: the destination is a caller-owned mutable object, so
writes made before a thrown error remain visible.  On the error paths the
sentinel write is skipped and the error is rethrown. -/
def migrateVSCodeStorageToFiles (gKeys sKeys wKeys : List String)
    (ctx : VSCodeContext α) (storage : StorageContext α) :
    Except String MigrationResult × StorageContext α :=
  if sentinelAtLeast (jsGet storage.globalState MIGRATION_VERSION_KEY) then
    (.ok ⟨false, 0, 0, 0, 0⟩, storage)
  else
    match migrateStateLoop ctx.globalState gKeys (storage.globalState, 0, 0) with
    | ((g, _, _), some e) => (.error e, { storage with globalState := g })
    | ((g, gc, skp1), none) =>
      match migrateSecretsLoop ctx.secrets sKeys (storage.secrets, 0, skp1) with
      | (s, sc, skp2) =>
        match migrateStateLoop ctx.workspaceState wKeys
            (storage.workspaceState, 0, skp2) with
        | ((w, _, _), some e) =>
          (.error e, { globalState := g, secrets := s, workspaceState := w })
        | ((w, wc, skp3), none) =>
          (.ok ⟨true, gc, sc, wc, skp3⟩,
            { globalState :=
                jsSet g MIGRATION_VERSION_KEY (GVal.num CURRENT_MIGRATION_VERSION),
              secrets := s, workspaceState := w })

/-! Spec-side predicates used to characterize the migration counters. -/

/-- The legacy read at `k` succeeded with a defined value. -/
def legacyDefined (vs : String → Except String (Option β)) (k : String) : Bool :=
  match vs k with
  | .ok (some _) => true
  | _ => false

/-- A state key the migration writes: legacy defined, destination absent. -/
def stateWriteP (vs : String → Except String (Option β))
    (g : List (String × β)) (k : String) : Bool :=
  legacyDefined vs k && !(jsGet g k).isSome

/-- A state key counted as `skippedExisting`: defined on both sides. -/
def stateBothP (vs : String → Except String (Option β))
    (g : List (String × β)) (k : String) : Bool :=
  legacyDefined vs k && (jsGet g k).isSome

/-- The legacy secret read at `k` succeeded with a non-empty value. -/
def legacySecretDefined (vs : String → Except String (Option String))
    (k : String) : Bool :=
  match vs k with
  | .ok (some v) => !(v = "")
  | _ => false

/-- The destination secrets store holds a non-empty value at `k`. -/
def secretPresent (s : List (String × String)) (k : String) : Bool :=
  match jsGet s k with
  | some w => !(w = "")
  | none => false

/-- A secret key the migration writes. -/
def secretWriteP (vs : String → Except String (Option String))
    (s : List (String × String)) (k : String) : Bool :=
  legacySecretDefined vs k && !secretPresent s k

/-- A secret key counted as `skippedExisting`. -/
def secretBothP (vs : String → Except String (Option String))
    (s : List (String × String)) (k : String) : Bool :=
  legacySecretDefined vs k && secretPresent s k

/-! ## Credential broker client (credential-client.ts)

`getServerCredentials` wraps the whole body in a `Promise` executor whose
`try`/`catch` resolves `{}` when creating the client throws, whose gRPC
callback resolves `{}` on a transport or remote error, and which
otherwise resolves `response?.env || {}`.  The external world (channel
creation and the remote call) is modelled as an oracle structure. -/

/-- The remote response: `env` is absent when the message carries none. -/
structure CredResponse where
  env : Option (List (String × String))

/-- Oracle for the external gRPC world: `createClient` models `getClient()`
(which may throw), `call` models the remote `getServerCredentials` RPC
(error, or a possibly-null response). -/
structure BrokerWorld where
  createClient : Except String Unit
  call : String → Except String (Option CredResponse)

/-- `getServerCredentials(serverName)`: an `Except.error` result would
model a rejected promise / thrown exception; the source resolves on every
path. -/
def getServerCredentials (w : BrokerWorld) (serverName : String) :
    Except String (List (String × String)) :=
  match w.createClient with
  | .error _ => .ok []
  | .ok _ =>
    match w.call serverName with
    | .error _ => .ok []
    | .ok none => .ok []
    | .ok (some r) => .ok (r.env.getD [])

/-! ## VSCode host-bridge credential stubs (src/unnamed/part_000..002)

The three handlers registered in VSCode extension mode.  They hold no
state; to express "nothing is persisted or deleted" each is given an
abstract backing-store state `σ` that it passes through unchanged, which
is exactly what the stateless source bodies do. -/

/-- `StringRequest { value }`. -/
structure StringRequest where
  value : String

/-- `ServerCredentials { serverName, env }`. -/
structure ServerCredentials where
  serverName : String
  env : List (String × String)
deriving Repr, DecidableEq

/-- `EmptyRequest.create({})`. -/
structure EmptyRequest where
deriving Repr, DecidableEq

/-- VSCode-mode `getServerCredentials` stub:
`ServerCredentials.create({ serverName: request.value, env: {} })`. -/
def vscodeGetServerCredentials (st : σ) (request : StringRequest) :
    σ × ServerCredentials :=
  (st, { serverName := request.value, env := [] })

/-- VSCode-mode `storeServerCredentials` stub: returns an empty ack. -/
def vscodeStoreServerCredentials (st : σ) (_request : ServerCredentials) :
    σ × EmptyRequest :=
  (st, {})

/-- VSCode-mode `deleteServerCredentials` stub: returns an empty ack. -/
def vscodeDeleteServerCredentials (st : σ) (_request : StringRequest) :
    σ × EmptyRequest :=
  (st, {})

/-! ### Concrete fixtures used to evaluate the definitions -/

/-- A legacy context with no data at all. -/
def unitCtx : VSCodeContext Unit :=
  { globalState := fun _ => .ok none
    secrets := fun _ => .ok none
    workspaceState := fun _ => .ok none }

/-- An empty destination. -/
def emptySt : StorageContext Unit :=
  { globalState := [], secrets := [], workspaceState := [] }

/-- A legacy context whose every secret reads `"v"`. -/
def c1ctx : VSCodeContext Unit :=
  { globalState := fun _ => .ok none
    secrets := fun _ => .ok (some "v")
    workspaceState := fun _ => .ok none }

/-- A destination holding the empty-string secret `"k"`. -/
def c1st : StorageContext Unit :=
  { globalState := [], secrets := [("k", "")], workspaceState := [] }

/-- A legacy context with a defined value in every domain. -/
def w1ctx : VSCodeContext Unit :=
  { globalState := fun _ => .ok (some (GVal.val ()))
    secrets := fun _ => .ok (some "lv")
    workspaceState := fun _ => .ok (some ()) }

/-- A destination already populated on the keys `"g"`, `"s"`, `"w"`. -/
def w1st : StorageContext Unit :=
  { globalState := [("g", GVal.val ())], secrets := [("s", "dv")],
    workspaceState := [("w", ())] }

/-- A legacy context whose secret `"a"` read throws and whose other
secrets read `"v"`. -/
def c6ctx : VSCodeContext Unit :=
  { globalState := fun _ => .ok none
    secrets := fun k => if k = "a" then .error "boom" else .ok (some "v")
    workspaceState := fun _ => .ok none }

/-- A legacy context whose global-state reads all throw. -/
def c7ctx : VSCodeContext Unit :=
  { globalState := fun _ => .error "x"
    secrets := fun _ => .ok none
    workspaceState := fun _ => .ok none }

/-- A legacy context whose secrets all read as the empty string. -/
def c9ctx : VSCodeContext Unit :=
  { globalState := fun _ => .ok none
    secrets := fun _ => .ok (some "")
    workspaceState := fun _ => .ok none }

/-- A broker world where creating the client throws. -/
def downWorld : BrokerWorld :=
  { createClient := .error "unreachable", call := fun _ => .error "unreachable" }

/-! ## Basic lemmas about the JavaScript object model -/

@[simp] theorem jsGet_nil (k : String) : jsGet ([] : List (String × α)) k = none := rfl

theorem jsGet_cons (p : String × α) (t : List (String × α)) (k : String) :
    jsGet (p :: t) k = if p.1 = k then some p.2 else jsGet t k := rfl

@[simp] theorem jsGet_jsSet_self (m : List (String × α)) (k : String) (v : α) :
    jsGet (jsSet m k v) k = some v := by
  induction m with
  | nil => simp [jsSet, jsGet]
  | cons p t ih =>
      obtain ⟨a, b⟩ := p
      by_cases h : a = k
      · simp [jsSet, jsGet, h]
      · simp [jsSet, jsGet, h, ih]

@[simp] theorem jsGet_jsSet_ne (m : List (String × α)) (k k' : String) (v : α)
    (h : k' ≠ k) : jsGet (jsSet m k v) k' = jsGet m k' := by
  induction m with
  | nil => simp [jsSet, jsGet, Ne.symm h]
  | cons p t ih =>
      obtain ⟨a, b⟩ := p
      by_cases hp : a = k
      · subst hp
        simp [jsSet, jsGet, Ne.symm h]
      · simp [jsSet, jsGet, hp, ih]

@[simp] theorem jsGet_jsDelete_self (m : List (String × α)) (k : String) :
    jsGet (jsDelete m k) k = none := by
  induction m with
  | nil => simp [jsDelete]
  | cons p t ih =>
      obtain ⟨a, b⟩ := p
      by_cases h : a = k
      · simp [jsDelete, h, ih]
      · simp [jsDelete, jsGet, h, ih]

@[simp] theorem jsGet_jsDelete_ne (m : List (String × α)) (k k' : String)
    (h : k' ≠ k) : jsGet (jsDelete m k) k' = jsGet m k' := by
  induction m with
  | nil => simp [jsDelete]
  | cons p t ih =>
      obtain ⟨a, b⟩ := p
      by_cases hp : a = k
      · subst hp
        simp [jsDelete, jsGet, Ne.symm h, ih]
      · simp [jsDelete, jsGet, hp, ih]

/-! ## Lemmas about setBatch -/

theorem countP_congr_on {l : List String} {p q : String → Bool}
    (h : ∀ x ∈ l, p x = q x) : l.countP p = l.countP q := by
  induction l with
  | nil => rfl
  | cons a t ih =>
      simp only [List.countP_cons, h a (by simp),
        ih (fun x hx => h x (by simp [hx]))]

theorem setBatchStep_get_ne (acc : List (String × α) × Bool)
    (e : String × Option α) (k : String) (hne : k ≠ e.1) :
    jsGet (ClineFileStorage.setBatchStep acc e).1 k = jsGet acc.1 k := by
  obtain ⟨d, b⟩ := acc
  obtain ⟨k', vo⟩ := e
  cases vo with
  | none =>
      by_cases h : jsHas d k'
      · simp [ClineFileStorage.setBatchStep, h, jsGet_jsDelete_ne _ _ _ hne]
      · simp [ClineFileStorage.setBatchStep, h]
  | some v => simp [ClineFileStorage.setBatchStep, jsGet_jsSet_ne _ _ _ _ hne]

theorem setBatchStep_get_self (acc : List (String × α) × Bool) (k : String)
    (vo : Option α) :
    jsGet (ClineFileStorage.setBatchStep acc (k, vo)).1 k = vo := by
  obtain ⟨d, b⟩ := acc
  cases vo with
  | none =>
      by_cases h : jsHas d k
      · simp [ClineFileStorage.setBatchStep, h]
      · simp only [ClineFileStorage.setBatchStep]
        simp only [h, if_false, Bool.false_eq_true, ite_false]
        simpa [jsHas] using Option.not_isSome_iff_eq_none.mp (by simpa [jsHas] using h)
  | some v => simp [ClineFileStorage.setBatchStep]

theorem foldl_setBatchStep_true (entries : List (String × Option α))
    (d : List (String × α)) :
    (entries.foldl ClineFileStorage.setBatchStep (d, true)).2 = true := by
  induction entries generalizing d with
  | nil => rfl
  | cons e rest ih =>
      obtain ⟨k, vo⟩ := e
      cases vo with
      | none =>
          by_cases h : jsHas d k
          · simpa [ClineFileStorage.setBatchStep, h] using ih (jsDelete d k)
          · simpa [ClineFileStorage.setBatchStep, h] using ih d
      | some v => simpa [ClineFileStorage.setBatchStep] using ih (jsSet d k v)

theorem foldl_setBatchStep_changed (entries : List (String × Option α))
    (d : List (String × α)) :
    (entries.foldl ClineFileStorage.setBatchStep (d, false)).2 =
      batchChanged d entries := by
  induction entries generalizing d with
  | nil => rfl
  | cons e rest ih =>
      obtain ⟨k, vo⟩ := e
      cases vo with
      | none =>
          by_cases h : jsHas d k
          · simp [ClineFileStorage.setBatchStep, h, batchChanged,
              foldl_setBatchStep_true]
          · simpa [ClineFileStorage.setBatchStep, h, batchChanged] using ih d
      | some v =>
          simp [ClineFileStorage.setBatchStep, batchChanged,
            foldl_setBatchStep_true]

theorem foldl_setBatchStep_get_not_mem (entries : List (String × Option α)) :
    ∀ (d : List (String × α)) (b : Bool) (k : String),
      k ∉ entries.map Prod.fst →
      jsGet (entries.foldl ClineFileStorage.setBatchStep (d, b)).1 k = jsGet d k := by
  induction entries with
  | nil => intro d b k _; rfl
  | cons e rest ih =>
      intro d b k hk
      have hne : k ≠ e.1 := by
        intro h; exact hk (by simp [h])
      have hrest : k ∉ rest.map Prod.fst := by
        intro h; exact hk (by simp [h])
      rw [List.foldl_cons]
      exact (ih _ _ k hrest).trans (setBatchStep_get_ne _ _ _ hne)

theorem foldl_setBatchStep_applies (entries : List (String × Option α)) :
    ∀ (d : List (String × α)) (b : Bool),
      (entries.map Prod.fst).Nodup →
      ∀ k vo, (k, vo) ∈ entries →
        jsGet (entries.foldl ClineFileStorage.setBatchStep (d, b)).1 k = vo := by
  induction entries with
  | nil => intro d b _ k vo h; cases h
  | cons e rest ih =>
      intro d b hnd k vo hmem
      have hk' : e.1 ∉ rest.map Prod.fst :=
        (List.nodup_cons.mp (by simpa using hnd)).1
      have hndr : (rest.map Prod.fst).Nodup :=
        (List.nodup_cons.mp (by simpa using hnd)).2
      rcases List.mem_cons.mp hmem with heq | hmem'
      · rw [List.foldl_cons]
        have hke : e.1 = k := by rw [← heq]
        have hkk : k ∉ rest.map Prod.fst := hke ▸ hk'
        have h1 := foldl_setBatchStep_get_not_mem rest
          (ClineFileStorage.setBatchStep (d, b) e).1
          (ClineFileStorage.setBatchStep (d, b) e).2 k hkk
        refine h1.trans ?_
        rw [← heq]
        exact setBatchStep_get_self _ _ _
      · rw [List.foldl_cons]
        exact ih _ _ hndr k vo hmem'

/-! ## Lemmas about the migration loops -/

theorem migrateStateLoop_get_not_mem (vs : String → Except String (Option β)) :
    ∀ (keys : List String) (g : List (String × β)) (c s : Nat) (k : String),
      k ∉ keys →
      jsGet (migrateStateLoop vs keys (g, c, s)).1.1 k = jsGet g k := by
  intro keys
  induction keys with
  | nil => intro g c s k _; rfl
  | cons a rest ih =>
      intro g c s k hk
      have hka : k ≠ a := fun h => hk (by simp [h])
      have hkr : k ∉ rest := fun h => hk (by simp [h])
      cases hva : vs a with
      | error e => simp [migrateStateLoop, hva]
      | ok vo =>
        cases vo with
        | none => simpa [migrateStateLoop, hva] using ih g c s k hkr
        | some v =>
          cases hg : jsGet g a with
          | some w => simpa [migrateStateLoop, hva, hg] using ih g c (s + 1) k hkr
          | none =>
              have hthis := ih (jsSet g a v) (c + 1) s k hkr
              rw [jsGet_jsSet_ne g a k v hka] at hthis
              simpa [migrateStateLoop, hva, hg] using hthis

theorem migrateStateLoop_none_iff (vs : String → Except String (Option β)) :
    ∀ (keys : List String) (acc : List (String × β) × Nat × Nat),
      (migrateStateLoop vs keys acc).2 = none ↔
        ∀ k ∈ keys, readNoThrow (vs k) := by
  intro keys
  induction keys with
  | nil => intro acc; simp [migrateStateLoop]
  | cons a rest ih =>
      intro acc
      obtain ⟨g, c, s⟩ := acc
      cases hva : vs a with
      | error e => simp [migrateStateLoop, hva, readNoThrow]
      | ok vo =>
        cases vo with
        | none => simp [migrateStateLoop, hva, readNoThrow, ih]
        | some v =>
          cases hg : jsGet g a with
          | some w => simp [migrateStateLoop, hva, hg, readNoThrow, ih]
          | none => simp [migrateStateLoop, hva, hg, readNoThrow, ih]

theorem migrateStateLoop_ok (vs : String → Except String (Option β)) :
    ∀ (keys : List String) (g : List (String × β)) (c s : Nat),
      (∀ k ∈ keys, readNoThrow (vs k)) → keys.Nodup →
      ∃ g',
        migrateStateLoop vs keys (g, c, s) =
          ((g', c + keys.countP (stateWriteP vs g),
            s + keys.countP (stateBothP vs g)), none) ∧
        (∀ k, k ∉ keys → jsGet g' k = jsGet g k) ∧
        (∀ k ∈ keys, stateWriteP vs g k = false → jsGet g' k = jsGet g k) ∧
        (∀ k ∈ keys, ∀ v, vs k = .ok (some v) → jsGet g k = none →
          jsGet g' k = some v) := by
  intro keys
  induction keys with
  | nil =>
      intro g c s _ _
      refine ⟨g, by simp [migrateStateLoop], fun k _ => rfl, ?_, ?_⟩
      · intro k hk; cases hk
      · intro k hk; cases hk
  | cons a rest ih =>
      intro g c s hok hnd
      have hnota : a ∉ rest := (List.nodup_cons.mp hnd).1
      have hndr : rest.Nodup := (List.nodup_cons.mp hnd).2
      have hoka : readNoThrow (vs a) := hok a (by simp)
      have hokr : ∀ k ∈ rest, readNoThrow (vs k) := fun k hk => hok k (by simp [hk])
      cases hva : vs a with
      | error e => rw [hva] at hoka; simp [readNoThrow] at hoka
      | ok vo =>
        cases vo with
        | none =>
            obtain ⟨g', heq, h1, h2, h3⟩ := ih g c s hokr hndr
            have hw : stateWriteP vs g a = false := by
              simp [stateWriteP, legacyDefined, hva]
            have hb : stateBothP vs g a = false := by
              simp [stateBothP, legacyDefined, hva]
            refine ⟨g', ?_, ?_, ?_, ?_⟩
            · have hcW : (a :: rest).countP (stateWriteP vs g) =
                  rest.countP (stateWriteP vs g) := by
                simp [List.countP_cons, hw]
              have hcB : (a :: rest).countP (stateBothP vs g) =
                  rest.countP (stateBothP vs g) := by
                simp [List.countP_cons, hb]
              rw [hcW, hcB]
              simpa [migrateStateLoop, hva] using heq
            · intro k hk
              exact h1 k (fun h => hk (by simp [h]))
            · intro k hk hwk
              rcases List.mem_cons.mp hk with rfl | hk'
              · exact h1 k hnota
              · exact h2 k hk' hwk
            · intro k hk v hv hg
              rcases List.mem_cons.mp hk with rfl | hk'
              · rw [hva] at hv; cases hv
              · exact h3 k hk' v hv hg
        | some v =>
          cases hg : jsGet g a with
          | some w =>
              obtain ⟨g', heq, h1, h2, h3⟩ := ih g c (s + 1) hokr hndr
              have hw : stateWriteP vs g a = false := by
                simp [stateWriteP, legacyDefined, hva, hg]
              have hb : stateBothP vs g a = true := by
                simp [stateBothP, legacyDefined, hva, hg]
              refine ⟨g', ?_, ?_, ?_, ?_⟩
              · have hcW : (a :: rest).countP (stateWriteP vs g) =
                    rest.countP (stateWriteP vs g) := by
                  simp [List.countP_cons, hw]
                have hcB : (a :: rest).countP (stateBothP vs g) =
                    rest.countP (stateBothP vs g) + 1 := by
                  simp [List.countP_cons, hb]
                rw [hcW, hcB]
                have harith : s + (rest.countP (stateBothP vs g) + 1) =
                    (s + 1) + rest.countP (stateBothP vs g) := by omega
                rw [harith]
                simpa [migrateStateLoop, hva, hg] using heq
              · intro k hk
                exact h1 k (fun h => hk (by simp [h]))
              · intro k hk hwk
                rcases List.mem_cons.mp hk with rfl | hk'
                · exact h1 k hnota
                · exact h2 k hk' hwk
              · intro k hk v' hv' hg'
                rcases List.mem_cons.mp hk with rfl | hk'
                · rw [hg] at hg'; cases hg'
                · exact h3 k hk' v' hv' hg'
          | none =>
              obtain ⟨g', heq, h1, h2, h3⟩ := ih (jsSet g a v) (c + 1) s hokr hndr
              have hpredW : ∀ k ∈ rest,
                  stateWriteP vs (jsSet g a v) k = stateWriteP vs g k := by
                intro k hk
                have hka : k ≠ a := fun h => hnota (h ▸ hk)
                simp [stateWriteP, jsGet_jsSet_ne g a k v hka]
              have hpredB : ∀ k ∈ rest,
                  stateBothP vs (jsSet g a v) k = stateBothP vs g k := by
                intro k hk
                have hka : k ≠ a := fun h => hnota (h ▸ hk)
                simp [stateBothP, jsGet_jsSet_ne g a k v hka]
              have hw : stateWriteP vs g a = true := by
                simp [stateWriteP, legacyDefined, hva, hg]
              refine ⟨g', ?_, ?_, ?_, ?_⟩
              · have hcW : (a :: rest).countP (stateWriteP vs g) =
                    rest.countP (stateWriteP vs (jsSet g a v)) + 1 := by
                  rw [List.countP_cons]
                  simp [hw, countP_congr_on hpredW]
                have hb : stateBothP vs g a = false := by
                  simp [stateBothP, legacyDefined, hva, hg]
                have hcB : (a :: rest).countP (stateBothP vs g) =
                    rest.countP (stateBothP vs (jsSet g a v)) := by
                  rw [List.countP_cons]
                  simp [hb, countP_congr_on hpredB]
                rw [hcW, hcB]
                have harith : c + (rest.countP (stateWriteP vs (jsSet g a v)) + 1) =
                    (c + 1) + rest.countP (stateWriteP vs (jsSet g a v)) := by omega
                rw [harith]
                simpa [migrateStateLoop, hva, hg] using heq
              · intro k hk
                have hka : k ≠ a := fun h => hk (by simp [h])
                have hthis := h1 k (fun h => hk (by simp [h]))
                rw [jsGet_jsSet_ne g a k v hka] at hthis
                exact hthis
              · intro k hk hwk
                rcases List.mem_cons.mp hk with rfl | hk'
                · rw [hw] at hwk; cases hwk
                · have hka : k ≠ a := fun h => hnota (h ▸ hk')
                  have hthis := h2 k hk' (by rw [hpredW k hk']; exact hwk)
                  rw [jsGet_jsSet_ne g a k v hka] at hthis
                  exact hthis
              · intro k hk v' hv' hg'
                rcases List.mem_cons.mp hk with rfl | hk'
                · rw [hva] at hv'
                  have hvv : v = v' := by
                    injection hv' with h
                    injection h
                  subst hvv
                  have hthis := h1 k hnota
                  rw [jsGet_jsSet_self g k v] at hthis
                  exact hthis
                · have hka : k ≠ a := fun h => hnota (h ▸ hk')
                  exact h3 k hk' v' hv'
                    (by rw [jsGet_jsSet_ne g a k v hka]; exact hg')

theorem migrateSecretsStep_skip (vs : String → Except String (Option String))
    (acc : List (String × String) × Nat × Nat) (k : String)
    (hk : vs k = .ok (some "")) : migrateSecretsStep vs acc k = acc := by
  obtain ⟨s, c, skp⟩ := acc
  simp [migrateSecretsStep, hk]

theorem migrateSecretsLoop_erase (vs : String → Except String (Option String))
    (k : String) (hk : vs k = .ok (some "")) :
    ∀ (keys : List String) (acc : List (String × String) × Nat × Nat),
      migrateSecretsLoop vs keys acc = migrateSecretsLoop vs (keys.erase k) acc := by
  intro keys
  induction keys with
  | nil => intro acc; rfl
  | cons a rest ih =>
      intro acc
      by_cases ha : a = k
      · subst ha
        rw [List.erase_cons_head]
        simp only [migrateSecretsLoop, List.foldl_cons,
          migrateSecretsStep_skip vs acc a hk]
      · rw [List.erase_cons_tail (by simp [ha])]
        simp only [migrateSecretsLoop, List.foldl_cons]
        exact ih _

theorem migrateSecretsLoop_spec (vs : String → Except String (Option String)) :
    ∀ (keys : List String) (s : List (String × String)) (c skp : Nat),
      keys.Nodup →
      ∃ s',
        migrateSecretsLoop vs keys (s, c, skp) =
          (s', c + keys.countP (secretWriteP vs s),
            skp + keys.countP (secretBothP vs s)) ∧
        (∀ k, k ∉ keys → jsGet s' k = jsGet s k) ∧
        (∀ k ∈ keys, secretWriteP vs s k = false → jsGet s' k = jsGet s k) ∧
        (∀ k ∈ keys, ∀ v, vs k = .ok (some v) → v ≠ "" →
          secretPresent s k = false → jsGet s' k = some v) := by
  intro keys
  induction keys with
  | nil =>
      intro s c skp _
      refine ⟨s, by simp [migrateSecretsLoop], fun k _ => rfl, ?_, ?_⟩
      · intro k hk; cases hk
      · intro k hk; cases hk
  | cons a rest ih =>
      intro s c skp hnd
      have hnota : a ∉ rest := (List.nodup_cons.mp hnd).1
      have hndr : rest.Nodup := (List.nodup_cons.mp hnd).2
      have hcons : ∀ acc, migrateSecretsLoop vs (a :: rest) acc =
          migrateSecretsLoop vs rest (migrateSecretsStep vs acc a) := by
        intro acc; simp [migrateSecretsLoop]
      by_cases hskip : secretWriteP vs s a = false ∧ secretBothP vs s a = false
      · -- the key is skipped without counting: read error, undefined or ""
        obtain ⟨s', heq, h1, h2, h3⟩ := ih s c skp hndr
        have hstep : migrateSecretsStep vs (s, c, skp) a = (s, c, skp) := by
          rcases hva : vs a with e | vo
          · simp [migrateSecretsStep, hva]
          · rcases vo with _ | v
            · simp [migrateSecretsStep, hva]
            · by_cases hv : v = ""
              · simp [migrateSecretsStep, hva, hv]
              · exfalso
                rcases hgs : jsGet s a with _ | w
                · have : secretWriteP vs s a = true := by
                    simp [secretWriteP, legacySecretDefined, secretPresent, hva,
                      hv, hgs]
                  rw [hskip.1] at this; cases this
                · by_cases hw : w = ""
                  · have : secretWriteP vs s a = true := by
                      simp [secretWriteP, legacySecretDefined, secretPresent,
                        hva, hv, hgs, hw]
                    rw [hskip.1] at this; cases this
                  · have : secretBothP vs s a = true := by
                      simp [secretBothP, legacySecretDefined, secretPresent,
                        hva, hv, hgs, hw]
                    rw [hskip.2] at this; cases this
        refine ⟨s', ?_, ?_, ?_, ?_⟩
        · have hcW : (a :: rest).countP (secretWriteP vs s) =
              rest.countP (secretWriteP vs s) := by
            simp [List.countP_cons, hskip.1]
          have hcB : (a :: rest).countP (secretBothP vs s) =
              rest.countP (secretBothP vs s) := by
            simp [List.countP_cons, hskip.2]
          rw [hcW, hcB, hcons, hstep]
          exact heq
        · intro k hk
          exact h1 k (fun h => hk (by simp [h]))
        · intro k hk hwk
          rcases List.mem_cons.mp hk with rfl | hk'
          · exact h1 k hnota
          · exact h2 k hk' hwk
        · intro k hk v hv hvne hpres
          rcases List.mem_cons.mp hk with rfl | hk'
          · exfalso
            have : secretWriteP vs s k = true := by
              simp [secretWriteP, legacySecretDefined, hv, hvne, hpres]
            rw [hskip.1] at this; cases this
          · exact h3 k hk' v hv hvne hpres
      · rcases hva : vs a with e | vo
        · exact absurd ⟨by simp [secretWriteP, legacySecretDefined, hva],
            by simp [secretBothP, legacySecretDefined, hva]⟩ hskip
        · rcases vo with _ | v
          · exact absurd ⟨by simp [secretWriteP, legacySecretDefined, hva],
              by simp [secretBothP, legacySecretDefined, hva]⟩ hskip
          · by_cases hv : v = ""
            · exact absurd ⟨by simp [secretWriteP, legacySecretDefined, hva, hv],
                by simp [secretBothP, legacySecretDefined, hva, hv]⟩ hskip
            · -- the legacy value is defined and non-empty
              by_cases hpres : secretPresent s a
              · -- destination holds a non-empty value: count skippedExisting
                obtain ⟨s', heq, h1, h2, h3⟩ := ih s c (skp + 1) hndr
                have hw : secretWriteP vs s a = false := by
                  simp [secretWriteP, legacySecretDefined, hva, hv, hpres]
                have hb : secretBothP vs s a = true := by
                  simp [secretBothP, legacySecretDefined, hva, hv, hpres]
                obtain ⟨w, hgs, hwne⟩ :
                    ∃ w, jsGet s a = some w ∧ ¬ w = "" := by
                  rcases hgs : jsGet s a with _ | w
                  · rw [secretPresent, hgs] at hpres; cases hpres
                  · refine ⟨w, rfl, ?_⟩
                    rw [secretPresent, hgs] at hpres
                    simpa using hpres
                have hstep : migrateSecretsStep vs (s, c, skp) a =
                    (s, c, skp + 1) := by
                  simp [migrateSecretsStep, hva, hv, hgs, hwne]
                refine ⟨s', ?_, ?_, ?_, ?_⟩
                · have hcW : (a :: rest).countP (secretWriteP vs s) =
                      rest.countP (secretWriteP vs s) := by
                    simp [List.countP_cons, hw]
                  have hcB : (a :: rest).countP (secretBothP vs s) =
                      rest.countP (secretBothP vs s) + 1 := by
                    simp [List.countP_cons, hb]
                  rw [hcW, hcB, hcons, hstep]
                  have harith : skp + (rest.countP (secretBothP vs s) + 1) =
                      (skp + 1) + rest.countP (secretBothP vs s) := by omega
                  rw [harith]
                  exact heq
                · intro k hk
                  exact h1 k (fun h => hk (by simp [h]))
                · intro k hk hwk
                  rcases List.mem_cons.mp hk with rfl | hk'
                  · exact h1 k hnota
                  · exact h2 k hk' hwk
                · intro k hk v' hv' hvne' hpres'
                  rcases List.mem_cons.mp hk with rfl | hk'
                  · rw [hpres'] at hpres; cases hpres
                  · exact h3 k hk' v' hv' hvne' hpres'
              · -- destination absent or empty: write the legacy value
                obtain ⟨s', heq, h1, h2, h3⟩ := ih (jsSet s a v) (c + 1) skp hndr
                have hpredW : ∀ k ∈ rest,
                    secretWriteP vs (jsSet s a v) k = secretWriteP vs s k := by
                  intro k hk
                  have hka : k ≠ a := fun h => hnota (h ▸ hk)
                  simp [secretWriteP, secretPresent, jsGet_jsSet_ne s a k v hka]
                have hpredB : ∀ k ∈ rest,
                    secretBothP vs (jsSet s a v) k = secretBothP vs s k := by
                  intro k hk
                  have hka : k ≠ a := fun h => hnota (h ▸ hk)
                  simp [secretBothP, secretPresent, jsGet_jsSet_ne s a k v hka]
                have hw : secretWriteP vs s a = true := by
                  simp [secretWriteP, legacySecretDefined, hva, hv]
                  simpa using hpres
                have hb : secretBothP vs s a = false := by
                  simp [secretBothP, legacySecretDefined, hva, hv]
                  simpa using hpres
                have hstep : migrateSecretsStep vs (s, c, skp) a =
                    (jsSet s a v, c + 1, skp) := by
                  rcases hgs : jsGet s a with _ | w
                  · simp [migrateSecretsStep, hva, hv, hgs]
                  · have hw' : w = "" := by
                      rw [secretPresent, hgs] at hpres
                      simpa using hpres
                    simp [migrateSecretsStep, hva, hv, hgs, hw']
                refine ⟨s', ?_, ?_, ?_, ?_⟩
                · have hcW : (a :: rest).countP (secretWriteP vs s) =
                      rest.countP (secretWriteP vs (jsSet s a v)) + 1 := by
                    rw [List.countP_cons]
                    simp [hw, countP_congr_on hpredW]
                  have hcB : (a :: rest).countP (secretBothP vs s) =
                      rest.countP (secretBothP vs (jsSet s a v)) := by
                    rw [List.countP_cons]
                    simp [hb, countP_congr_on hpredB]
                  rw [hcW, hcB, hcons, hstep]
                  have harith :
                      c + (rest.countP (secretWriteP vs (jsSet s a v)) + 1) =
                      (c + 1) + rest.countP (secretWriteP vs (jsSet s a v)) := by
                    omega
                  rw [harith]
                  exact heq
                · intro k hk
                  have hka : k ≠ a := fun h => hk (by simp [h])
                  have hthis := h1 k (fun h => hk (by simp [h]))
                  rw [jsGet_jsSet_ne s a k v hka] at hthis
                  exact hthis
                · intro k hk hwk
                  rcases List.mem_cons.mp hk with rfl | hk'
                  · rw [hw] at hwk; cases hwk
                  · have hka : k ≠ a := fun h => hnota (h ▸ hk')
                    have hthis := h2 k hk' (by rw [hpredW k hk']; exact hwk)
                    rw [jsGet_jsSet_ne s a k v hka] at hthis
                    exact hthis
                · intro k hk v' hv' hvne' hpres'
                  rcases List.mem_cons.mp hk with rfl | hk'
                  · rw [hva] at hv'
                    have hvv : v = v' := by
                      injection hv' with h
                      injection h
                    subst hvv
                    have hthis := h1 k hnota
                    rw [jsGet_jsSet_self s k v] at hthis
                    exact hthis
                  · have hka : k ≠ a := fun h => hnota (h ▸ hk')
                    refine h3 k hk' v' hv' hvne' ?_
                    have hps : secretPresent (jsSet s a v) k = secretPresent s k := by
                      simp [secretPresent, jsGet_jsSet_ne s a k v hka]
                    rw [hps]
                    exact hpres'

/-- Decomposition of a full migration pass: when the sentinel check fails
and no state read throws, the migration returns `migrated = true`, the
counters count exactly the write/skip keys of each domain, and the final
stores are the loop results with the sentinel added to the global store. -/
theorem migrate_run (gKeys sKeys wKeys : List String) (ctx : VSCodeContext α)
    (st : StorageContext α)
    (hsent : sentinelAtLeast (jsGet st.globalState MIGRATION_VERSION_KEY) = false)
    (hgok : ∀ k ∈ gKeys, readNoThrow (ctx.globalState k))
    (hwok : ∀ k ∈ wKeys, readNoThrow (ctx.workspaceState k))
    (hndg : gKeys.Nodup) (hnds : sKeys.Nodup) (hndw : wKeys.Nodup) :
    ∃ g' s' w',
      migrateVSCodeStorageToFiles gKeys sKeys wKeys ctx st =
        (.ok ⟨true,
          gKeys.countP (stateWriteP ctx.globalState st.globalState),
          sKeys.countP (secretWriteP ctx.secrets st.secrets),
          wKeys.countP (stateWriteP ctx.workspaceState st.workspaceState),
          gKeys.countP (stateBothP ctx.globalState st.globalState) +
            sKeys.countP (secretBothP ctx.secrets st.secrets) +
            wKeys.countP (stateBothP ctx.workspaceState st.workspaceState)⟩,
          { globalState := jsSet g' MIGRATION_VERSION_KEY
              (GVal.num CURRENT_MIGRATION_VERSION),
            secrets := s', workspaceState := w' }) ∧
      ((∀ k, k ∉ gKeys → jsGet g' k = jsGet st.globalState k) ∧
        (∀ k ∈ gKeys, stateWriteP ctx.globalState st.globalState k = false →
          jsGet g' k = jsGet st.globalState k) ∧
        (∀ k ∈ gKeys, ∀ v, ctx.globalState k = .ok (some v) →
          jsGet st.globalState k = none → jsGet g' k = some v)) ∧
      ((∀ k, k ∉ sKeys → jsGet s' k = jsGet st.secrets k) ∧
        (∀ k ∈ sKeys, secretWriteP ctx.secrets st.secrets k = false →
          jsGet s' k = jsGet st.secrets k) ∧
        (∀ k ∈ sKeys, ∀ v, ctx.secrets k = .ok (some v) → v ≠ "" →
          secretPresent st.secrets k = false → jsGet s' k = some v)) ∧
      ((∀ k, k ∉ wKeys → jsGet w' k = jsGet st.workspaceState k) ∧
        (∀ k ∈ wKeys, stateWriteP ctx.workspaceState st.workspaceState k = false →
          jsGet w' k = jsGet st.workspaceState k) ∧
        (∀ k ∈ wKeys, ∀ v, ctx.workspaceState k = .ok (some v) →
          jsGet st.workspaceState k = none → jsGet w' k = some v)) := by
  obtain ⟨g', heqg, hg1, hg2, hg3⟩ :=
    migrateStateLoop_ok ctx.globalState gKeys st.globalState 0 0 hgok hndg
  obtain ⟨s', heqs, hs1, hs2, hs3⟩ :=
    migrateSecretsLoop_spec ctx.secrets sKeys st.secrets 0
      (0 + gKeys.countP (stateBothP ctx.globalState st.globalState)) hnds
  obtain ⟨w', heqw, hw1, hw2, hw3⟩ :=
    migrateStateLoop_ok ctx.workspaceState wKeys st.workspaceState 0
      ((0 + gKeys.countP (stateBothP ctx.globalState st.globalState)) +
        sKeys.countP (secretBothP ctx.secrets st.secrets)) hwok hndw
  refine ⟨g', s', w', ?_, ⟨hg1, hg2, hg3⟩, ⟨hs1, hs2, hs3⟩, ⟨hw1, hw2, hw3⟩⟩
  rw [migrateVSCodeStorageToFiles, hsent]
  simp only [Bool.false_eq_true, if_false, heqg, heqs, heqw]
  simp only [Nat.zero_add]

theorem stateBothP_writeP_false (vs : String → Except String (Option β))
    (g : List (String × β)) (k : String) (h : stateBothP vs g k = true) :
    stateWriteP vs g k = false := by
  rw [stateBothP, Bool.and_eq_true] at h
  rw [stateWriteP, h.1]
  simp [h.2]

theorem secretBothP_writeP_false (vs : String → Except String (Option String))
    (s : List (String × String)) (k : String) (h : secretBothP vs s k = true) :
    secretWriteP vs s k = false := by
  rw [secretBothP, Bool.and_eq_true] at h
  rw [secretWriteP, h.1]
  simp [h.2]

/-- A successful migration result implies that no global-state or
workspace-state read threw. -/
theorem migrate_ok_no_throw (gKeys sKeys wKeys : List String)
    (ctx : VSCodeContext α) (st : StorageContext α) (r : MigrationResult)
    (hsb : sentinelAtLeast (jsGet st.globalState MIGRATION_VERSION_KEY) = false)
    (h : (migrateVSCodeStorageToFiles gKeys sKeys wKeys ctx st).1 = .ok r) :
    (∀ k ∈ gKeys, readNoThrow (ctx.globalState k)) ∧
    (∀ k ∈ wKeys, readNoThrow (ctx.workspaceState k)) := by
  rw [migrateVSCodeStorageToFiles, hsb] at h
  simp only [Bool.false_eq_true, if_false] at h
  split at h
  · simp at h
  · next g gc skp1 heqg =>
      constructor
      · have h2 : (migrateStateLoop ctx.globalState gKeys (st.globalState, 0, 0)).2
            = none := by rw [heqg]
        exact (migrateStateLoop_none_iff ctx.globalState gKeys _).mp h2
      · split at h
        · simp at h
        · next w wc skp3 heqw =>
            have h2 : (migrateStateLoop ctx.workspaceState wKeys
                (st.workspaceState, 0,
                  (migrateSecretsLoop ctx.secrets sKeys (st.secrets, 0, skp1)).2.2)).2
                = none := by rw [heqw]
            exact (migrateStateLoop_none_iff ctx.workspaceState wKeys _).mp h2

/-! ## The claims -/

/-- C4: round-trip persistence — setting `k := v` on a store constructed
against a backing file and then constructing a new `ClineFileStorage`
instance against the file written by that `set` yields `get k = v`, for
any value type (so in particular for nested mappings and sequences),
provided the intervening write and read succeed (`true` flags). -/
theorem C4_round_trip (α : Type) (file : Option (List (String × α)))
    (readOk : Bool) (k : String) (v : α) :
    ClineFileStorage.get
      (ClineFileStorage.mk
        (ClineFileStorage.set (ClineFileStorage.mk file readOk) k (some v) true).file
        true) k = some v := by
  simp [ClineFileStorage.get, ClineFileStorage.mk, ClineFileStorage.set,
    readFromDisk, writeToDisk]

/-- C5: `_delete(k)` and `_set(k, undefined)` produce the same store
state — the same in-memory mapping and the same persisted file content —
whatever the outcome of the disk write. -/
theorem C5_delete_set_equiv (α : Type) (s : StoreState α) (k : String)
    (writeOk : Bool) :
    ClineFileStorage.delete s k writeOk = ClineFileStorage.set s k none writeOk :=
  rfl

/-- C8: `getServerCredentials` never rejects: it resolves on every path —
to the empty mapping when client creation throws, when the call errors,
or when the response carries no `env`, and to the response's `env`
mapping on success. -/
theorem C8_credential_fetch_degradation (w : BrokerWorld) (serverName : String) :
    (∃ m, getServerCredentials w serverName = .ok m) ∧
    (∀ e, w.createClient = .error e →
      getServerCredentials w serverName = .ok []) ∧
    (∀ e', w.call serverName = .error e' →
      getServerCredentials w serverName = .ok []) ∧
    (w.createClient = .ok () → w.call serverName = .ok none →
      getServerCredentials w serverName = .ok []) ∧
    (∀ r, w.createClient = .ok () → w.call serverName = .ok (some r) →
      getServerCredentials w serverName = .ok (r.env.getD [])) := by
  refine ⟨?_, ?_, ?_, ?_, ?_⟩
  · rcases hc : w.createClient with e | u
    · exact ⟨[], by simp [getServerCredentials, hc]⟩
    · rcases hr : w.call serverName with e | ro
      · exact ⟨[], by simp [getServerCredentials, hc, hr]⟩
      · rcases ro with _ | r
        · exact ⟨[], by simp [getServerCredentials, hc, hr]⟩
        · exact ⟨r.env.getD [], by simp [getServerCredentials, hc, hr]⟩
  · intro e he
    simp [getServerCredentials, he]
  · intro e' he'
    rcases hc : w.createClient with e | u
    · simp [getServerCredentials, hc]
    · simp [getServerCredentials, hc, he']
  · intro hc hr
    simp [getServerCredentials, hc, hr]
  · intro r hc hr
    simp [getServerCredentials, hc, hr]

/-- C8 witness: with the broker unreachable (client creation throws), the
fetch resolves to the empty mapping. -/
theorem C8_credential_fetch_degradation_witness :
    getServerCredentials downWorld "x" = .ok [] :=
  (C8_credential_fetch_degradation downWorld "x").2.1 "unreachable" rfl

/-- C10: the VSCode host-bridge stubs are constant — `getServerCredentials`
echoes the requested server name with an empty `env` whatever the backing
state, and the store/delete handlers acknowledge without touching any
state. -/
theorem C10_vscode_credential_stubs (σ : Type) (st : σ) (req : StringRequest)
    (creds : ServerCredentials) :
    vscodeGetServerCredentials st req =
      (st, { serverName := req.value, env := [] }) ∧
    vscodeStoreServerCredentials st creds = (st, {}) ∧
    vscodeDeleteServerCredentials st req = (st, {}) :=
  ⟨rfl, rfl, rfl⟩

/-- C2: idempotent migration — whenever a call to
`migrateVSCodeStorageToFiles` completes successfully, a second call
against the resulting destination returns at the sentinel check with
`migrated = false` and all-zero counters and leaves every destination
store untouched (the short-circuit path performs no write at all). -/
theorem C2_idempotent (α : Type) (gKeys sKeys wKeys : List String)
    (ctx : VSCodeContext α) (st : StorageContext α) (r : MigrationResult)
    (st' : StorageContext α)
    (h : migrateVSCodeStorageToFiles gKeys sKeys wKeys ctx st = (.ok r, st')) :
    migrateVSCodeStorageToFiles gKeys sKeys wKeys ctx st' =
      (.ok ⟨false, 0, 0, 0, 0⟩, st') := by
  cases hsb : sentinelAtLeast (jsGet st.globalState MIGRATION_VERSION_KEY) with
  | true =>
      rw [migrateVSCodeStorageToFiles, if_pos hsb] at h
      have hst : st = st' := congrArg Prod.snd h
      subst hst
      rw [migrateVSCodeStorageToFiles, if_pos hsb]
  | false =>
      rw [migrateVSCodeStorageToFiles, hsb] at h
      simp only [Bool.false_eq_true, if_false] at h
      split at h
      · simp at h
      · split at h
        · simp at h
        · have hst' : st' = _ := (congrArg Prod.snd h).symm
          have hsent' :
              sentinelAtLeast (jsGet st'.globalState MIGRATION_VERSION_KEY) = true := by
            rw [hst']
            simp [sentinelAtLeast, CURRENT_MIGRATION_VERSION]
          rw [migrateVSCodeStorageToFiles, if_pos hsent']

/-- C2 witness: a concrete successful first migration followed by the
short-circuiting second call. -/
theorem C2_idempotent_witness :
    migrateVSCodeStorageToFiles [] [] [] unitCtx
        ⟨[(MIGRATION_VERSION_KEY, GVal.num 1)], [], []⟩ =
      (.ok ⟨false, 0, 0, 0, 0⟩,
        ⟨[(MIGRATION_VERSION_KEY, GVal.num 1)], [], []⟩) :=
  C2_idempotent Unit [] [] [] unitCtx emptySt ⟨true, 0, 0, 0, 0⟩
    ⟨[(MIGRATION_VERSION_KEY, GVal.num 1)], [], []⟩ rfl

/-- C3 counterexample: against a store holding `a := 1`, the batch
`{a: 1}` leaves the in-memory mapping completely unchanged, yet the
source still persists once and fires a change event for `"a"` — refuting
the claim that a persist happens only if some entry actually changed the
mapping's state and that notifications fire only when the batch changed
something. -/
theorem C3_counterexample :
    (ClineFileStorage.setBatch (⟨[("a", 1)], some [("a", 1)]⟩ : StoreState Nat)
        [("a", some 1)] true).1.data =
      (⟨[("a", 1)], some [("a", 1)]⟩ : StoreState Nat).data ∧
    (ClineFileStorage.setBatch (⟨[("a", 1)], some [("a", 1)]⟩ : StoreState Nat)
        [("a", some 1)] true).2.1 = 1 ∧
    (ClineFileStorage.setBatch (⟨[("a", 1)], some [("a", 1)]⟩ : StoreState Nat)
        [("a", some 1)] true).2.2 = ["a"] :=
  ⟨rfl, rfl, rfl⟩

/-- C3 (amended): `setBatch` applies every update and deletion to the
in-memory mapping, performs at most one persist, persists exactly when
some entry carries a defined value (even one equal to the stored value)
or deletes a currently-bound key, and fires one change notification per
batch key exactly under that same condition. -/
theorem C3_setBatch_amended (α : Type) (s : StoreState α)
    (entries : List (String × Option α)) (writeOk : Bool)
    (hnd : (entries.map Prod.fst).Nodup) :
    (∀ k vo, (k, vo) ∈ entries →
      jsGet (ClineFileStorage.setBatch s entries writeOk).1.data k = vo) ∧
    (∀ k, k ∉ entries.map Prod.fst →
      jsGet (ClineFileStorage.setBatch s entries writeOk).1.data k =
        jsGet s.data k) ∧
    (ClineFileStorage.setBatch s entries writeOk).2.1 ≤ 1 ∧
    ((ClineFileStorage.setBatch s entries writeOk).2.1 = 1 ↔
      batchChanged s.data entries = true) ∧
    (ClineFileStorage.setBatch s entries writeOk).2.2 =
      (if batchChanged s.data entries then entries.map Prod.fst else []) := by
  have hch := foldl_setBatchStep_changed entries s.data
  cases hb : batchChanged s.data entries with
  | true =>
      have hr2 : (entries.foldl ClineFileStorage.setBatchStep (s.data, false)).2
          = true := by rw [hch, hb]
      simp only [ClineFileStorage.setBatch, hr2, if_true]
      exact ⟨fun k vo hmem => foldl_setBatchStep_applies entries s.data false hnd k vo hmem,
        fun k hk => foldl_setBatchStep_get_not_mem entries s.data false k hk,
        by decide, by simp [hb], by simp [hb]⟩
  | false =>
      have hr2 : (entries.foldl ClineFileStorage.setBatchStep (s.data, false)).2
          = false := by rw [hch, hb]
      simp only [ClineFileStorage.setBatch, hr2, Bool.false_eq_true, if_false]
      exact ⟨fun k vo hmem => foldl_setBatchStep_applies entries s.data false hnd k vo hmem,
        fun k hk => foldl_setBatchStep_get_not_mem entries s.data false k hk,
        by decide, by simp [hb], by simp [hb]⟩

/-- C3 witness: a concrete batch with one deletion and one insertion. -/
theorem C3_setBatch_amended_witness :
    jsGet (ClineFileStorage.setBatch (⟨[("a", 5)], none⟩ : StoreState Nat)
        [("a", none), ("b", some 7)] true).1.data "b" = some 7 :=
  (C3_setBatch_amended Nat ⟨[("a", 5)], none⟩ [("a", none), ("b", some 7)] true
    (by decide)).1 "b" (some 7) (by decide)

/-- C1 counterexample: secret key `"k"` is defined on both sides before
migration (legacy `"v"`, destination `""`), yet the migration overwrites
the destination value and counts the key in `secretsCount` with
`skippedExisting = 0` — refuting the claim for keys whose destination
secret is the empty string (the source treats `""` as absent). -/
theorem C1_counterexample :
    c1ctx.secrets "k" = .ok (some "v") ∧
    jsGet c1st.secrets "k" = some "" ∧
    (migrateVSCodeStorageToFiles [] ["k"] [] c1ctx c1st).1 =
      .ok ⟨true, 0, 1, 0, 0⟩ ∧
    jsGet ((migrateVSCodeStorageToFiles [] ["k"] [] c1ctx c1st).2).secrets "k" =
      some "v" :=
  ⟨rfl, rfl, rfl, rfl⟩

/-- C1 (amended): never-overwrite merge invariant — in a completed full
migration pass (result `migrated = true`) over duplicate-free key lists
whose global list does not contain the sentinel key, every key present in
both the legacy source and the destination store of its domain — where
for the secrets domain `present` means defined and non-empty, on both
sides — keeps its pre-migration destination value; `skippedExisting`
counts exactly those keys, and each write counter counts exactly the keys
of its domain that are present in legacy and absent in the destination. -/
theorem C1_never_overwrite_amended (α : Type) (gKeys sKeys wKeys : List String)
    (ctx : VSCodeContext α) (st : StorageContext α) (r : MigrationResult)
    (hndg : gKeys.Nodup) (hnds : sKeys.Nodup) (hndw : wKeys.Nodup)
    (hgs : MIGRATION_VERSION_KEY ∉ gKeys)
    (hok : (migrateVSCodeStorageToFiles gKeys sKeys wKeys ctx st).1 = .ok r)
    (hmig : r.migrated = true) :
    (∀ k ∈ gKeys, stateBothP ctx.globalState st.globalState k = true →
      jsGet ((migrateVSCodeStorageToFiles gKeys sKeys wKeys ctx st).2).globalState k =
        jsGet st.globalState k) ∧
    (∀ k ∈ sKeys, secretBothP ctx.secrets st.secrets k = true →
      jsGet ((migrateVSCodeStorageToFiles gKeys sKeys wKeys ctx st).2).secrets k =
        jsGet st.secrets k) ∧
    (∀ k ∈ wKeys, stateBothP ctx.workspaceState st.workspaceState k = true →
      jsGet ((migrateVSCodeStorageToFiles gKeys sKeys wKeys ctx st).2).workspaceState k =
        jsGet st.workspaceState k) ∧
    r.skippedExisting =
      gKeys.countP (stateBothP ctx.globalState st.globalState) +
        sKeys.countP (secretBothP ctx.secrets st.secrets) +
        wKeys.countP (stateBothP ctx.workspaceState st.workspaceState) ∧
    r.globalStateCount = gKeys.countP (stateWriteP ctx.globalState st.globalState) ∧
    r.secretsCount = sKeys.countP (secretWriteP ctx.secrets st.secrets) ∧
    r.workspaceStateCount =
      wKeys.countP (stateWriteP ctx.workspaceState st.workspaceState) := by
  cases hsb : sentinelAtLeast (jsGet st.globalState MIGRATION_VERSION_KEY) with
  | true =>
      rw [migrateVSCodeStorageToFiles, if_pos hsb] at hok
      simp only [Except.ok.injEq] at hok
      rw [← hok] at hmig
      simp at hmig
  | false =>
      obtain ⟨hgok, hwok⟩ := migrate_ok_no_throw gKeys sKeys wKeys ctx st r hsb hok
      obtain ⟨g', s', w', heq, ⟨hg1, hg2, hg3⟩, ⟨hs1, hs2, hs3⟩, ⟨hw1, hw2, hw3⟩⟩ :=
        migrate_run gKeys sKeys wKeys ctx st hsb hgok hwok hndg hnds hndw
      have h1 := congrArg Prod.fst heq
      have h2 := congrArg Prod.snd heq
      rw [hok] at h1
      simp only [Except.ok.injEq] at h1
      refine ⟨?_, ?_, ?_, ?_, ?_, ?_, ?_⟩
      · intro k hk hboth
        have hkney : k ≠ MIGRATION_VERSION_KEY := fun hcon => hgs (hcon ▸ hk)
        calc jsGet ((migrateVSCodeStorageToFiles gKeys sKeys wKeys ctx st).2).globalState k
            = jsGet (jsSet g' MIGRATION_VERSION_KEY
                (GVal.num CURRENT_MIGRATION_VERSION)) k := by rw [h2]
          _ = jsGet g' k := jsGet_jsSet_ne _ _ _ _ hkney
          _ = jsGet st.globalState k :=
              hg2 k hk (stateBothP_writeP_false _ _ _ hboth)
      · intro k hk hboth
        calc jsGet ((migrateVSCodeStorageToFiles gKeys sKeys wKeys ctx st).2).secrets k
            = jsGet s' k := by rw [h2]
          _ = jsGet st.secrets k :=
              hs2 k hk (secretBothP_writeP_false _ _ _ hboth)
      · intro k hk hboth
        calc jsGet ((migrateVSCodeStorageToFiles gKeys sKeys wKeys ctx st).2).workspaceState k
            = jsGet w' k := by rw [h2]
          _ = jsGet st.workspaceState k :=
              hw2 k hk (stateBothP_writeP_false _ _ _ hboth)
      · rw [h1]
      · rw [h1]
      · rw [h1]
      · rw [h1]

/-- C1 witness: every domain holds a key present on both sides; all three
destination values survive unchanged and `skippedExisting = 3`. -/
theorem C1_never_overwrite_amended_witness :
    jsGet ((migrateVSCodeStorageToFiles ["g"] ["s"] ["w"] w1ctx w1st).2).secrets "s" =
      jsGet w1st.secrets "s" := by
  have h := C1_never_overwrite_amended Unit ["g"] ["s"] ["w"] w1ctx w1st
    ⟨true, 0, 0, 0, 3⟩ (by decide) (by decide) (by decide) (by decide) rfl rfl
  exact h.2.1 "s" (by decide) (by decide)

/-- C6: partial-failure isolation for secrets — when reading secret `A`
throws while secret `B` reads a non-empty value absent from the
destination (and no global/workspace read throws, so no other fatal
error intervenes), the migration completes with `migrated = true` and no
propagated exception, `B` is written and counted in `secretsCount`, and
`A`'s destination entry is left untouched. -/
theorem C6_partial_failure_isolation (α : Type) (gKeys sKeys wKeys : List String)
    (ctx : VSCodeContext α) (st : StorageContext α) (A B errMsg v : String)
    (hndg : gKeys.Nodup) (hnds : sKeys.Nodup) (hndw : wKeys.Nodup)
    (hA : A ∈ sKeys) (hB : B ∈ sKeys)
    (herrA : ctx.secrets A = .error errMsg)
    (hokB : ctx.secrets B = .ok (some v)) (hv : v ≠ "")
    (hBabs : jsGet st.secrets B = none)
    (hsent : sentinelAtLeast (jsGet st.globalState MIGRATION_VERSION_KEY) = false)
    (hgok : ∀ k ∈ gKeys, readNoThrow (ctx.globalState k))
    (hwok : ∀ k ∈ wKeys, readNoThrow (ctx.workspaceState k)) :
    ∃ r : MigrationResult,
      (migrateVSCodeStorageToFiles gKeys sKeys wKeys ctx st).1 = .ok r ∧
      r.migrated = true ∧
      1 ≤ r.secretsCount ∧
      jsGet ((migrateVSCodeStorageToFiles gKeys sKeys wKeys ctx st).2).secrets B =
        some v ∧
      jsGet ((migrateVSCodeStorageToFiles gKeys sKeys wKeys ctx st).2).secrets A =
        jsGet st.secrets A := by
  obtain ⟨g', s', w', heq, _, ⟨hs1, hs2, hs3⟩, _⟩ :=
    migrate_run gKeys sKeys wKeys ctx st hsent hgok hwok hndg hnds hndw
  have h1 := congrArg Prod.fst heq
  have h2 := congrArg Prod.snd heq
  have hwB : secretWriteP ctx.secrets st.secrets B = true := by
    simp [secretWriteP, legacySecretDefined, secretPresent, hokB, hv, hBabs]
  refine ⟨_, h1, rfl, ?_, ?_, ?_⟩
  · exact List.countP_pos_iff.mpr ⟨B, hB, hwB⟩
  · calc jsGet ((migrateVSCodeStorageToFiles gKeys sKeys wKeys ctx st).2).secrets B
        = jsGet s' B := by rw [h2]
      _ = some v := hs3 B hB v hokB hv (by simp [secretPresent, hBabs])
  · calc jsGet ((migrateVSCodeStorageToFiles gKeys sKeys wKeys ctx st).2).secrets A
        = jsGet s' A := by rw [h2]
      _ = jsGet st.secrets A :=
          hs2 A hA (by simp [secretWriteP, legacySecretDefined, herrA])

/-- C6 witness: key `"a"` throws, key `"b"` reads `"v"`; `"b"` ends up in
the destination. -/
theorem C6_partial_failure_isolation_witness :
    jsGet ((migrateVSCodeStorageToFiles [] ["a", "b"] [] c6ctx emptySt).2).secrets "b" =
      some "v" := by
  obtain ⟨r, h1, h2, h3, h4, h5⟩ :=
    C6_partial_failure_isolation Unit [] ["a", "b"] [] c6ctx emptySt
      "a" "b" "boom" "v" (by decide) (by decide) (by decide)
      (by decide) (by decide) rfl rfl (by decide) rfl rfl
      (fun k hk => absurd hk (List.not_mem_nil k))
      (fun k hk => absurd hk (List.not_mem_nil k))
  exact h4

/-- C7: sentinel withheld on fatal error — when the sentinel check fails
and some global-state or workspace-state read throws (the only fatal
errors; per-secret-key failures are isolated), the migration propagates
an error, the sentinel key of the destination global store is unchanged,
and the sentinel check still fails afterwards, so a later call re-runs
the migration in full. -/
theorem C7_sentinel_withheld (α : Type) (gKeys sKeys wKeys : List String)
    (ctx : VSCodeContext α) (st : StorageContext α)
    (hsent : sentinelAtLeast (jsGet st.globalState MIGRATION_VERSION_KEY) = false)
    (hkey : MIGRATION_VERSION_KEY ∉ gKeys)
    (herr : (∃ k ∈ gKeys, ¬ readNoThrow (ctx.globalState k)) ∨
            (∃ k ∈ wKeys, ¬ readNoThrow (ctx.workspaceState k))) :
    ∃ e, (migrateVSCodeStorageToFiles gKeys sKeys wKeys ctx st).1 = .error e ∧
      jsGet ((migrateVSCodeStorageToFiles gKeys sKeys wKeys ctx st).2).globalState
          MIGRATION_VERSION_KEY =
        jsGet st.globalState MIGRATION_VERSION_KEY ∧
      sentinelAtLeast
        (jsGet ((migrateVSCodeStorageToFiles gKeys sKeys wKeys ctx st).2).globalState
          MIGRATION_VERSION_KEY) = false := by
  rcases hG : migrateStateLoop ctx.globalState gKeys (st.globalState, 0, 0) with
    ⟨⟨g, gc, sk1⟩, gerr⟩
  have hgpres : jsGet g MIGRATION_VERSION_KEY =
      jsGet st.globalState MIGRATION_VERSION_KEY := by
    have hthis := migrateStateLoop_get_not_mem ctx.globalState gKeys
      st.globalState 0 0 MIGRATION_VERSION_KEY hkey
    rw [hG] at hthis
    exact hthis
  cases gerr with
  | some e =>
      have hmeq : migrateVSCodeStorageToFiles gKeys sKeys wKeys ctx st =
          (.error e, { st with globalState := g }) := by
        simp only [migrateVSCodeStorageToFiles, hsent, Bool.false_eq_true,
          if_false, hG]
      refine ⟨e, by rw [hmeq], ?_, ?_⟩
      · rw [hmeq]
        exact hgpres
      · rw [hmeq]
        show sentinelAtLeast (jsGet g MIGRATION_VERSION_KEY) = false
        rw [hgpres]
        exact hsent
  | none =>
      have hgok : ∀ k ∈ gKeys, readNoThrow (ctx.globalState k) := by
        have h2 : (migrateStateLoop ctx.globalState gKeys (st.globalState, 0, 0)).2
            = none := by rw [hG]
        exact (migrateStateLoop_none_iff ctx.globalState gKeys _).mp h2
      have hwerr : ∃ k ∈ wKeys, ¬ readNoThrow (ctx.workspaceState k) := by
        rcases herr with hg | hw
        · obtain ⟨k, hk, hnk⟩ := hg
          exact absurd (hgok k hk) hnk
        · exact hw
      rcases hW : migrateStateLoop ctx.workspaceState wKeys
          (st.workspaceState, 0,
            (migrateSecretsLoop ctx.secrets sKeys (st.secrets, 0, sk1)).2.2) with
        ⟨⟨w, wc, sk3⟩, werr⟩
      cases werr with
      | none =>
          exfalso
          have h2 : (migrateStateLoop ctx.workspaceState wKeys
              (st.workspaceState, 0,
                (migrateSecretsLoop ctx.secrets sKeys (st.secrets, 0, sk1)).2.2)).2
              = none := by rw [hW]
          obtain ⟨k, hk, hnk⟩ := hwerr
          exact hnk ((migrateStateLoop_none_iff ctx.workspaceState wKeys _).mp h2 k hk)
      | some e =>
          have hmeq : migrateVSCodeStorageToFiles gKeys sKeys wKeys ctx st =
              (.error e,
                ⟨g, (migrateSecretsLoop ctx.secrets sKeys (st.secrets, 0, sk1)).1, w⟩) := by
            simp only [migrateVSCodeStorageToFiles, hsent, Bool.false_eq_true,
              if_false, hG, hW]
          refine ⟨e, by rw [hmeq], ?_, ?_⟩
          · rw [hmeq]
            exact hgpres
          · rw [hmeq]
            show sentinelAtLeast (jsGet g MIGRATION_VERSION_KEY) = false
            rw [hgpres]
            exact hsent

/-- C7 witness: a throwing global-state read leaves the sentinel absent. -/
theorem C7_sentinel_withheld_witness :
    jsGet ((migrateVSCodeStorageToFiles ["g"] [] [] c7ctx emptySt).2).globalState
      MIGRATION_VERSION_KEY = none := by
  obtain ⟨e, h1, h2, h3⟩ := C7_sentinel_withheld Unit ["g"] [] [] c7ctx emptySt
    rfl (by decide) (Or.inl ⟨"g", by decide, by decide⟩)
  exact h2.trans rfl

/-- C9: empty-string secrets are treated as absent — a secret whose
legacy value reads `""` is neither written nor counted (dropping it from
the key list leaves the whole migration outcome unchanged, and its
destination entry is untouched); symmetrically an empty-string
destination value does not block the write: the legacy value overwrites
it. -/
theorem C9_empty_string_secrets (α : Type) (gKeys sKeys wKeys : List String)
    (ctx : VSCodeContext α) (st : StorageContext α) (k : String)
    (hnds : sKeys.Nodup) (hk : k ∈ sKeys)
    (hsent : sentinelAtLeast (jsGet st.globalState MIGRATION_VERSION_KEY) = false)
    (hgok : ∀ k' ∈ gKeys, readNoThrow (ctx.globalState k')) :
    (ctx.secrets k = .ok (some "") →
      migrateVSCodeStorageToFiles gKeys sKeys wKeys ctx st =
        migrateVSCodeStorageToFiles gKeys (sKeys.erase k) wKeys ctx st ∧
      jsGet ((migrateVSCodeStorageToFiles gKeys sKeys wKeys ctx st).2).secrets k =
        jsGet st.secrets k) ∧
    (∀ v, ctx.secrets k = .ok (some v) → v ≠ "" → jsGet st.secrets k = some "" →
      jsGet ((migrateVSCodeStorageToFiles gKeys sKeys wKeys ctx st).2).secrets k =
        some v) := by
  rcases hG : migrateStateLoop ctx.globalState gKeys (st.globalState, 0, 0) with
    ⟨⟨g, gc, sk1⟩, gerr⟩
  have hgn : gerr = none := by
    have h2 := (migrateStateLoop_none_iff ctx.globalState gKeys
      (st.globalState, 0, 0)).mpr hgok
    rw [hG] at h2
    exact h2
  subst hgn
  obtain ⟨s', heqs, hs1, hs2, hs3⟩ :=
    migrateSecretsLoop_spec ctx.secrets sKeys st.secrets 0 sk1 hnds
  have hsec : ((migrateVSCodeStorageToFiles gKeys sKeys wKeys ctx st).2).secrets = s' := by
    rcases hW : migrateStateLoop ctx.workspaceState wKeys
        (st.workspaceState, 0,
          sk1 + sKeys.countP (secretBothP ctx.secrets st.secrets)) with
      ⟨⟨w, wc, sk3⟩, werr⟩
    cases werr with
    | some e =>
        simp only [migrateVSCodeStorageToFiles, hsent, Bool.false_eq_true,
          if_false, hG, heqs, hW]
    | none =>
        simp only [migrateVSCodeStorageToFiles, hsent, Bool.false_eq_true,
          if_false, hG, heqs, hW]
  constructor
  · intro hemp
    constructor
    · have herase := migrateSecretsLoop_erase ctx.secrets k hemp sKeys
      simp only [migrateVSCodeStorageToFiles, herase]
    · rw [hsec]
      exact hs2 k hk (by simp [secretWriteP, legacySecretDefined, hemp])
  · intro v hv hvne hpemp
    rw [hsec]
    exact hs3 k hk v hv hvne (by simp [secretPresent, hpemp])

/-- C9 witness: a secret reading `""` can be dropped from the key list
without changing the migration outcome. -/
theorem C9_empty_string_secrets_witness :
    migrateVSCodeStorageToFiles [] ["e"] [] c9ctx ⟨[], [("e", "")], []⟩ =
      migrateVSCodeStorageToFiles [] (["e"].erase "e") [] c9ctx
        ⟨[], [("e", "")], []⟩ :=
  ((C9_empty_string_secrets Unit [] ["e"] [] c9ctx ⟨[], [("e", "")], []⟩ "e"
    (by decide) (by decide) rfl
    (fun k' hk' => absurd hk' (List.not_mem_nil k'))).1 rfl).1

end ClineSpec
